import Mathlib

/-!
Verification of the hh.ru IT-vacancies collection pipeline (`vacancies.py`).

Shallow embedding conventions:
* Python strings are `List Char`; `"…".data` injects a literal.
* Timestamps are absolute integers in MICROSECONDS since 0001-01-01T00:00:00
  UTC (`datetime.min` with `tzinfo=utc` is `0`); Python `datetime` arithmetic
  and comparison on aware values compares these absolute values.
* Floor division `//` is `Int.fdiv`, `%` is `Int.emod` (Python semantics).
* `str.lower` is modelled on the ASCII and Cyrillic (А-Я, Ё) ranges, which
  covers every keyword and target-city constant in the program.
-/

namespace Vacancies

/-! ## Basic string helpers (models of Python `str` operations) -/

/-- Python `needle in hay` (substring containment, empty needle matches). -/
def strIn (needle : List Char) : List Char → Bool
  | [] => needle.isEmpty
  | c :: rest => needle.isPrefixOf (c :: rest) || strIn needle rest

/-- Python `str.lower` on one character, modelled for ASCII A-Z and
Cyrillic А-Я / Ё (the ranges used by the program's constants). -/
def pyLowerChar (c : Char) : Char :=
  if 'A' ≤ c ∧ c ≤ 'Z' then Char.ofNat (c.toNat + 32)
  else if 'А' ≤ c ∧ c ≤ 'Я' then Char.ofNat (c.toNat + 32)
  else if c = 'Ё' then 'ё'
  else c

/-- Python `str.lower`. -/
def pyLower (s : List Char) : List Char := s.map pyLowerChar

/-- Python `sep.join(parts)`. -/
def pyJoin (sep : List Char) : List (List Char) → List Char
  | [] => []
  | [x] => x
  | x :: y :: ys => x ++ sep ++ pyJoin sep (y :: ys)

/-- Decimal digit character. -/
def digitChar (n : Nat) : Char := Char.ofNat (48 + n)

/-- Decimal representation of a natural number (fuel-structural so that it
reduces in the kernel; fuel `n + 1` always suffices). -/
def natReprAux : Nat → Nat → List Char
  | 0, _ => []
  | fuel + 1, n =>
      if n < 10 then [digitChar n]
      else natReprAux fuel (n / 10) ++ [digitChar (n % 10)]

/-- Python `str(n)` / `f"{n}"` for a natural number. -/
def natRepr (n : Nat) : List Char := natReprAux (n + 1) n

/-- Python `str(i)` for an integer. -/
def intRepr (i : Int) : List Char :=
  if i < 0 then '-' :: natRepr (-i).toNat else natRepr i.toNat

/-- `strftime` two-digit zero padding (`%d`, `%m`, `%H`, `%M`). -/
def pad2 (n : Nat) : List Char :=
  if n < 10 then '0' :: natRepr n else natRepr n

/-! ## Calendar arithmetic (proleptic Gregorian, as Python `datetime`) -/

def usPerSec : Int := 1000000
def usPerDay : Int := 86400000000

def isLeap (y : Nat) : Bool := y % 4 = 0 && (y % 100 ≠ 0 || y % 400 = 0)

def daysInMonth (y m : Nat) : Nat :=
  match m with
  | 1 => 31 | 2 => if isLeap y then 29 else 28 | 3 => 31 | 4 => 30
  | 5 => 31 | 6 => 30 | 7 => 31 | 8 => 31
  | 9 => 30 | 10 => 31 | 11 => 30 | 12 => 31
  | _ => 0

/-- Days from 0001-01-01 to year `y`, month `m`, day `d`
(Howard Hinnant's `days_from_civil`, shifted to the `datetime.min` epoch). -/
def daysFromCivil (y m d : Nat) : Nat :=
  let yy := if m ≤ 2 then y - 1 else y
  let era := yy / 400
  let yoe := yy % 400
  let mp := if 2 < m then m - 3 else m + 9
  let doy := (153 * mp + 2) / 5 + d - 1
  let doe := yoe * 365 + yoe / 4 - yoe / 100 + doy
  era * 146097 + doe - 306

/-- Inverse: civil (year, month, day) from days since 0001-01-01. -/
def civilFromDays (z0 : Int) : Int × Nat × Nat :=
  let z := z0 + 306
  let era := Int.fdiv z 146097
  let doe := z - era * 146097
  let yoe := Int.fdiv (doe - Int.fdiv doe 1460 + Int.fdiv doe 36524 - Int.fdiv doe 146096) 365
  let y := yoe + era * 400
  let doy := doe - (365 * yoe + Int.fdiv yoe 4 - Int.fdiv yoe 100)
  let mp := Int.fdiv (5 * doy + 2) 153
  let d := doy - Int.fdiv (153 * mp + 2) 5 + 1
  let m := if mp < 10 then mp + 3 else mp - 9
  (if m ≤ 2 then y + 1 else y, m.toNat, d.toNat)

/-- `strftime("%d.%m.%Y")` of a timestamp. -/
def dateDMY (t : Int) : List Char :=
  let c := civilFromDays (Int.fdiv t usPerDay)
  pad2 c.2.2 ++ ".".data ++ pad2 c.2.1 ++ ".".data ++ intRepr c.1

/-- `strftime("%H:%M")` of a timestamp. -/
def timeHM (t : Int) : List Char :=
  let secs := ((Int.emod t usPerDay).toNat) / 1000000
  pad2 (secs / 3600) ++ ":".data ++ pad2 (secs % 3600 / 60)

/-- `strftime("%d.%m.%Y %H:%M")` of a timestamp. -/
def dmyhm (t : Int) : List Char := dateDMY t ++ " ".data ++ timeHM t

/-! ## `parse_date` (vacancies.py lines 190-203)

`datetime.fromisoformat` is modelled on the ISO-8601 subset
`YYYY-MM-DD[(T| )HH:MM[:SS[.ffffff]]][+HH[:MM[:SS]] | +HHMM]` with full range
validation (month, day-in-month with leap years, hour/minute/second, offset
bounds), which covers every timestamp shape the upstream API produces.  An
aware value is normalised to an absolute UTC timestamp (fields minus offset);
a naive value is defaulted to UTC, as `parse_date` does. -/

def digitVal (c : Char) : Option Nat :=
  if c.isDigit then some (c.toNat - 48) else none

/-- Read exactly two decimal digits. -/
def parse2 : List Char → Option (Nat × List Char)
  | a :: b :: r =>
      match digitVal a, digitVal b with
      | some x, some y => some (10 * x + y, r)
      | _, _ => none
  | _ => none

/-- Read exactly four decimal digits. -/
def parse4 : List Char → Option (Nat × List Char)
  | a :: b :: c :: d :: r =>
      match digitVal a, digitVal b, digitVal c, digitVal d with
      | some w, some x, some y, some z => some (1000 * w + 100 * x + 10 * y + z, r)
      | _, _, _, _ => none
  | _ => none

/-- Fractional seconds: 1-6 digits, right-padded to microseconds. -/
def parseFrac : List Char → Option (Nat × List Char)
  | l =>
    let digs := l.takeWhile Char.isDigit
    let rest := l.dropWhile Char.isDigit
    if 1 ≤ digs.length ∧ digs.length ≤ 6 then
      let v := digs.foldl (fun acc c => acc * 10 + (c.toNat - 48)) 0
      some (v * 10 ^ (6 - digs.length), rest)
    else none

/-- UTC offset `±HH[:MM[:SS]]` or `±HHMM`, in seconds (signed). -/
def parseOffset : List Char → Option Int
  | sign :: r =>
    if sign = '+' ∨ sign = '-' then
      match parse2 r with
      | none => none
      | some (oh, r1) =>
        let rec finish (oh om os : Nat) : Option Int :=
          if oh ≤ 23 ∧ om ≤ 59 ∧ os ≤ 59 then
            let v : Int := (oh * 3600 + om * 60 + os : Nat)
            some (if sign = '-' then -v else v)
          else none
        match r1 with
        | [] => finish oh 0 0
        | ':' :: r2 =>
          match parse2 r2 with
          | none => none
          | some (om, r3) =>
            match r3 with
            | [] => finish oh om 0
            | ':' :: r4 =>
              match parse2 r4 with
              | some (os, []) => finish oh om os
              | _ => none
            | _ => none
        | _ =>
          match parse2 r1 with
          | some (om, []) => finish oh om 0
          | _ => none
    else none
  | [] => none

/-- Time-of-day and optional offset, after the date separator.  Returns
(microseconds within the day, optional offset in seconds). -/
def parseTimeAndOffset (l : List Char) : Option (Nat × Option Int) :=
  match parse2 l with
  | none => none
  | some (h, r1) =>
    match r1 with
    | ':' :: r2 =>
      match parse2 r2 with
      | none => none
      | some (mi, r3) =>
        let valid := h ≤ 23 ∧ mi ≤ 59
        let base := fun (sec frac : Nat) =>
          (h * 3600 + mi * 60 + sec) * 1000000 + frac
        if valid then
          match r3 with
          | [] => some (base 0 0, none)
          | ':' :: r4 =>
            (match parse2 r4 with
             | none => none
             | some (sec, r5) =>
               if sec ≤ 59 then
                 match r5 with
                 | [] => some (base sec 0, none)
                 | '.' :: r6 =>
                   (match parseFrac r6 with
                    | none => none
                    | some (frac, r7) =>
                      match r7 with
                      | [] => some (base sec frac, none)
                      | _ => (parseOffset r7).map fun off => (base sec frac, some off))
                 | ',' :: r6 =>
                   (match parseFrac r6 with
                    | none => none
                    | some (frac, r7) =>
                      match r7 with
                      | [] => some (base sec frac, none)
                      | _ => (parseOffset r7).map fun off => (base sec frac, some off))
                 | _ => (parseOffset r5).map fun off => (base sec 0, some off)
               else none)
          | _ => (parseOffset r3).map fun off => (base 0 0, some off)
        else none
    | _ => none

/-- `datetime.fromisoformat` (modelled subset), as an absolute UTC timestamp
in microseconds since 0001-01-01T00:00:00. -/
def fromisoformat (s : List Char) : Option Int :=
  match parse4 s with
  | none => none
  | some (y, r1) =>
    match r1 with
    | '-' :: r2 =>
      (match parse2 r2 with
       | none => none
       | some (m, r3) =>
         match r3 with
         | '-' :: r4 =>
           (match parse2 r4 with
            | none => none
            | some (d, r5) =>
              if 1 ≤ y ∧ y ≤ 9999 ∧ 1 ≤ m ∧ m ≤ 12 ∧ 1 ≤ d ∧ d ≤ daysInMonth y m then
                let dayUs : Int := (daysFromCivil y m d : Nat) * usPerDay
                match r5 with
                | [] => some dayUs
                | sep :: r6 =>
                  if sep = 'T' ∨ sep = ' ' then
                    match parseTimeAndOffset r6 with
                    | none => none
                    | some (tod, none) => some (dayUs + tod)
                    | some (tod, some off) => some (dayUs + tod - off * usPerSec)
                  else none
              else none)
         | _ => none)
    | _ => none

/-- Lines 193-194: a trailing `'Z'` is rewritten to `'+00:00'`. -/
def preprocessZ (s : List Char) : List Char :=
  if s.getLast? = some 'Z' then s.dropLast ++ "+00:00".data else s

/-- `parse_date` (lines 190-203).  The argument is the raw `published_at`
field, which the normalizer may have left as `None` (`none` here); any
failure inside the `try` block (including `None.endswith` raising) is caught
and `datetime.min.replace(tzinfo=utc)` — absolute timestamp `0` — is
returned.  Total by construction. -/
def parse_date (date_string : Option (List Char)) : Int :=
  match date_string with
  | none => 0
  | some s =>
    match fromisoformat (preprocessZ s) with
    | some t => t
    | none => 0

/-- Whether `parse_date` succeeds (does not take the `except` fallback). -/
def isParseable (date_string : Option (List Char)) : Bool :=
  match date_string with
  | none => false
  | some s => (fromisoformat (preprocessZ s)).isSome

/-! ## `get_target_period` (lines 170-188) -/

/-- `timedelta(hours=3)` in microseconds. -/
def moscow_offset : Int := 10800000000

/-- `get_target_period` (lines 170-188), as a function of the current UTC
time `now_utc`.  `now_moscow.replace(hour=20, minute=0, second=0,
microsecond=0)` keeps the calendar day of `now_moscow` and sets the clock to
20:00, i.e. floors to the day boundary and adds 20 hours. -/
def get_target_period (now_utc : Int) : Int × Int :=
  let now_moscow := now_utc + moscow_offset
  let today_20_moscow := Int.fdiv now_moscow usPerDay * usPerDay + 72000000000
  let yesterday_20_moscow := today_20_moscow - usPerDay
  (yesterday_20_moscow - moscow_offset, today_20_moscow - moscow_offset)

/-! ## Data model

`VacancyRecord` is the normalized dict built in `collect_once` (lines
536-545).  Keys always exist; values copied from the raw item may be `None`
(`Option` here).  `name`, `alternate_url` and the two snippet texts are
modelled as plain strings: a `None` in any of them would crash the renderer
or classifier before any behaviour claimed here is reached, so they are
outside the model. -/

structure SalaryInfo where
  salary_from : Option Int
  salary_to : Option Int
  currency : Option (List Char)
  gross : Option Bool
  deriving DecidableEq

structure VacancyRecord where
  id : Option (List Char)
  name : List Char
  alternate_url : List Char
  published_at : Option (List Char)
  salary : Option SalaryInfo
  employer_name : Option (List Char)
  area_name : Option (List Char)
  requirement : List Char
  responsibility : List Char
  deriving DecidableEq

/-! ## Window/city filter (lines 263-291) -/

/-- `TARGET_CITIES` (line 42). -/
def TARGET_CITIES : List (List Char) :=
  ["Москва".data, "Санкт-Петербург".data,
   "Москва и Московская область".data, "Санкт-Петербург и область".data]

/-- `is_target_city` (lines 263-265): some target city name is a
case-insensitive substring of the record's city name. -/
def is_target_city (city_name : List Char) : Bool :=
  TARGET_CITIES.any fun target_city => strIn (pyLower target_city) (pyLower city_name)

/-- Loop body of `filter_vacancies` (lines 271-287): `True` iff the record
survives both `continue`s.  The `except` path (line 285) is unreachable in
the embedding: field access on the normalized record cannot raise and
`parse_date` is total. -/
def keep_vacancy (period_start period_end : Int) (v : VacancyRecord) : Bool :=
  let published_at := parse_date v.published_at
  if !(decide (period_start ≤ published_at) && decide (published_at ≤ period_end)) then
    false
  else
    match v.area_name with
    | none => false
    | some a => if a.isEmpty then false else is_target_city a

/-- Stable insert for descending sort by key: the incoming (earlier) element
goes in front of the first element whose key is `≤` its own. -/
def insertDesc (key : α → Int) (x : α) : List α → List α
  | [] => [x]
  | y :: ys => if key y ≤ key x then x :: y :: ys else y :: insertDesc key x ys

/-- Stable descending sort by key: model of Python
`list.sort(key=…, reverse=True)` (Timsort is stable, and `reverse=True`
still preserves the relative order of equal elements). -/
def sortByKeyDesc (key : α → Int) : List α → List α
  | [] => []
  | x :: xs => insertDesc key x (sortByKeyDesc key xs)

/-- `filter_vacancies` (lines 267-291): keep matching records in arrival
order, then sort from newest to oldest (line 290). -/
def filter_vacancies (vacancies : List VacancyRecord) (period_start period_end : Int) :
    List VacancyRecord :=
  sortByKeyDesc (fun v => parse_date v.published_at)
    (vacancies.filter (keep_vacancy period_start period_end))

/-! ## `detect_specialization` (lines 246-261) -/

/-- The lowercase concatenation `name_lower + ' ' + snippet_lower`
(lines 248-250); the snippet dict is represented by its `requirement` and
`responsibility` texts with the code's `''` defaults. -/
def full_text_of (vacancy_name requirement responsibility : List Char) : List Char :=
  pyLower vacancy_name ++ " ".data ++ pyLower (requirement ++ " ".data ++ responsibility)

/-- The four category strings returned at lines 253, 255, 257/259 and 261. -/
def pythonCat : List Char := "🐍 Python разработчик".data

def javaCat : List Char := "☕ Java разработчик".data

def frontendCat : List Char := "🎨 Frontend разработчик".data

def genericCat : List Char := "💻 IT-разработчик".data

/-- `detect_specialization` (lines 246-261). -/
def detect_specialization (vacancy_name requirement responsibility : List Char) :
    List Char :=
  let full_text := full_text_of vacancy_name requirement responsibility
  if strIn "python".data full_text then pythonCat
  else if strIn "java".data full_text && !strIn "javascript".data full_text
      && !strIn "js".data full_text then javaCat
  else if strIn "frontend".data full_text || strIn "react".data full_text
      || strIn "angular".data full_text || strIn "vue".data full_text then
    frontendCat
  else if strIn "javascript".data full_text || strIn "js".data full_text then
    frontendCat
  else genericCat

/-! ## Report renderer helpers (lines 205-244) -/

/-- Python f-string interpolation of a possibly-`None` string value. -/
def pyNone : Option (List Char) → List Char
  | none => "None".data
  | some s => s

/-- `str.replace(',', ' ')` (single-character replace is a map). -/
def replaceComma (l : List Char) : List Char :=
  l.map fun c => if c = ',' then ' ' else c

/-- Digit grouping of `f"{x:,}"`: a `','` every three digits from the right
(fuel-structural; fuel = digit count suffices). -/
def insertCommasAux : Nat → List Char → List Char
  | 0, ds => ds
  | fuel + 1, ds =>
      if ds.length ≤ 3 then ds
      else insertCommasAux fuel (ds.take (ds.length - 3)) ++ ',' :: ds.drop (ds.length - 3)

/-- `f"{i:,}"` for an integer (sign excluded from grouping). -/
def pyThousands (i : Int) : List Char :=
  if i < 0 then '-' :: insertCommasAux (-i).toNat.succ (natRepr (-i).toNat)
  else insertCommasAux i.toNat.succ (natRepr i.toNat)

/-- `format_salary` (lines 205-227).  `if salary_data.get('from'):` is Python
truthiness: both `None` and `0` are skipped.  `currency_symbols.get(currency,
currency)` falls back to the currency string itself, and a `None` currency
interpolates as `"None"`. -/
def format_salary (salary_data : Option SalaryInfo) : List Char :=
  match salary_data with
  | none => "💰 не указана".data
  | some sd =>
    let part := fun (o : Option Int) =>
      match o with
      | some v => if v ≠ 0 then [replaceComma (pyThousands v)] else []
      | none => []
    let parts := part sd.salary_from ++ part sd.salary_to
    let salary_str := pyJoin " - ".data parts
    let symbol :=
      match sd.currency with
      | none => "None".data
      | some c =>
        if c = "RUR".data then "₽".data
        else if c = "RUB".data then "₽".data
        else if c = "USD".data then "$".data
        else if c = "EUR".data then "€".data
        else c
    "💰 ".data ++ salary_str ++ " ".data ++ symbol

/-- `format_date` (lines 229-237): parse, convert to Moscow time, format.
The `except` branch is unreachable because `parse_date` is total. -/
def format_date (date_string : Option (List Char)) : List Char :=
  "📅 ".data ++ dmyhm (parse_date date_string + moscow_offset)

/-- Scan for the closing `'>'` of `re` pattern `<[^>]+>`: at least one
non-`'>'` character, then `'>'`; returns the remainder after the tag. -/
def scanGt : List Char → Option (List Char)
  | [] => none
  | '>' :: r => some r
  | _ :: r => scanGt r

def tagEnd : List Char → Option (List Char)
  | [] => none
  | c :: r => if c = '>' then none else scanGt r

def clean_htmlAux : Nat → List Char → List Char
  | 0, l => l
  | fuel + 1, l =>
      match l with
      | [] => []
      | '<' :: r =>
          (match tagEnd r with
           | some rest => clean_htmlAux fuel rest
           | none => '<' :: clean_htmlAux fuel r)
      | c :: r => c :: clean_htmlAux fuel r

/-- `clean_html` (lines 239-244): strip non-overlapping `<[^>]+>` matches. -/
def clean_html (text : List Char) : List Char :=
  if text.isEmpty then [] else clean_htmlAux text.length text

/-! ## `collections.Counter.most_common` -/

/-- Counter keys in insertion order = first-occurrence order. -/
def firstKeys [DecidableEq α] : List α → List α
  | [] => []
  | x :: xs => x :: firstKeys (xs.filter fun y => y != x)
termination_by l => l.length
decreasing_by
  exact Nat.lt_succ_of_le (List.length_filter_le _ _)

def countOcc [DecidableEq α] (k : α) (l : List α) : Nat :=
  l.countP fun y => decide (y = k)

/-- `Counter(l).most_common()`: pairs sorted by count descending, ties kept
in first-insertion order (CPython uses a stable `sorted(…, reverse=True)`,
modelled by the same stable descending sort as `list.sort`). -/
def most_common [DecidableEq α] (l : List α) : List (α × Nat) :=
  (sortByKeyDesc (fun k => (countOcc k l : Int)) (firstKeys l)).map
    fun k => (k, countOcc k l)

/-- Python `str.split()` (whitespace, empties dropped); fuel-structural. -/
def pySplitWsAux : Nat → List Char → List (List Char)
  | 0, _ => []
  | fuel + 1, l =>
      let l1 := l.dropWhile Char.isWhitespace
      if l1.isEmpty then []
      else
        l1.takeWhile (fun c => !c.isWhitespace)
          :: pySplitWsAux fuel (l1.dropWhile fun c => !c.isWhitespace)

def pySplitWs (l : List Char) : List (List Char) := pySplitWsAux l.length l

/-- `spec.split()[-1]` (the last whitespace-separated token; the argument is
always one of the four nonempty category literals, so `[-1]` cannot fail). -/
def lastTokenD (s : List Char) : List Char := (pySplitWs s).getLastD []

/-- `enumerate(vacancies, 1)`. -/
def enumFrom : Nat → List α → List (Nat × α)
  | _, [] => []
  | n, x :: xs => (n, x) :: enumFrom (n + 1) xs

/-! ## `generate_beautiful_report` (lines 293-425)

`datetime.now(timezone.utc)` (and the naive `datetime.now()` of line 422,
container clock taken as UTC) is passed in as `now`.  The `.date()`
comparisons of lines 361 and 410 are modelled as UTC calendar dates of the
absolute timestamps; the freshness markers they feed are not part of any
claim. -/

/-- `period_str` (line 301): both period endpoints converted to Moscow time
and formatted `%d.%m.%Y %H:%M`, joined by `" - "`. -/
def period_str_of (period_start period_end : Int) : List Char :=
  dmyhm (period_start + moscow_offset) ++ " - ".data ++ dmyhm (period_end + moscow_offset)

/-- The exact empty-result message of lines 303-304, including the
`.replace(',', ' ')` applied to the f-string. -/
def no_vacancies_message (period_start period_end : Int) : List Char :=
  replaceComma
    ("❌ За указанный период (".data ++ period_str_of period_start period_end
      ++ ") IT-вакансии не найдены.".data)

/-- One vacancy block of the report body (lines 339-389). -/
def record_block (now : Int) (iv : Nat × VacancyRecord) : List (List Char) :=
  let i := iv.1
  let v := iv.2
  let specialization := detect_specialization v.name v.requirement v.responsibility
  let vacancy_date := parse_date v.published_at
  let time_diff := now - vacancy_date
  let date_str0 := format_date v.published_at
  let date_str :=
    if time_diff ≤ 3600 * usPerSec then date_str0 ++ " 🆕".data
    else if time_diff ≤ 21600 * usPerSec then date_str0 ++ " 🔥".data
    else if Int.fdiv vacancy_date usPerDay = Int.fdiv now usPerDay then
      date_str0 ++ " ⭐".data
    else date_str0
  let reqClean := clean_html v.requirement
  let respClean := clean_html v.responsibility
  ["**".data ++ natRepr i ++ ". ".data ++ specialization ++ "**".data,
   "**".data ++ v.name ++ "**".data,
   List.replicate 30 '─',
   "🔗 ".data ++ v.alternate_url,
   date_str,
   format_salary v.salary,
   "🏢 **Компания:** ".data ++ pyNone v.employer_name,
   "📍 **Город:** ".data ++ pyNone v.area_name]
  ++ (if !reqClean.isEmpty && decide (5 < reqClean.length) then
        ["📝 **Требования:** ".data
          ++ (if 120 < reqClean.length then reqClean.take 120 ++ "...".data else reqClean)]
      else [])
  ++ (if !respClean.isEmpty && decide (5 < respClean.length) then
        ["💼 **Обязанности:** ".data
          ++ (if 120 < respClean.length then respClean.take 120 ++ "...".data
              else respClean)]
      else [])
  ++ [[], "══════════════════════════════".data, []]

/-- One `f'{spec.split()[-1]} ({count})'` entry of the per-category
distribution (lines 331 and 419). -/
def spec_stat_entry (sc : List Char × Nat) : List Char :=
  lastTokenD sc.1 ++ " (".data ++ natRepr sc.2 ++ ")".data

/-- One `f'{city} ({count})'` entry of the per-city breakdown (line 418). -/
def city_stat_entry (cc : Option (List Char) × Nat) : List Char :=
  pyNone cc.1 ++ " (".data ++ natRepr cc.2 ++ ")".data

/-- Header and statistics lines of the report (lines 320-336). -/
def header_lines (vac : List VacancyRecord) (total_found : Nat)
    (period_str : List Char) : List (List Char) :=
  let spec_stats := most_common
    (vac.map fun v => detect_specialization v.name v.requirement v.responsibility)
  let salaries_with_info := vac.filter fun v => v.salary.isSome
  ["💻 **ОБЗОР IT-ВАКАНСИЙ**".data,
   "══════════════════════════════".data,
   [],
   "📈 **СТАТИСТИКА:**".data,
   "• Всего IT-вакансий найдено: **".data ++ natRepr total_found ++ "**".data,
   "• Подходит под фильтры: **".data ++ natRepr vac.length ++ "**".data,
   "• Указана зарплата: **".data ++ natRepr salaries_with_info.length ++ "**".data,
   "• Период: **".data ++ period_str ++ "**".data,
   "• Распределение: ".data ++ pyJoin ", ".data (spec_stats.map spec_stat_entry),
   [],
   "📋 **ВАКАНСИИ:**".data,
   "══════════════════════════════".data,
   []]

/-- Trailing summary lines of the report (lines 391-423). -/
def summary_lines (v0 : VacancyRecord) (vrest : List VacancyRecord) (now : Int) :
    List (List Char) :=
  let vac := v0 :: vrest
  let city_stats := most_common (vac.map (·.area_name))
  let spec_stats := most_common
    (vac.map fun v => detect_specialization v.name v.requirement v.responsibility)
  let newest_str := dmyhm (parse_date v0.published_at + moscow_offset)
  let oldest_str :=
    dmyhm (parse_date (vac.getLast (List.cons_ne_nil _ _)).published_at + moscow_offset)
  let today_count := vac.countP fun v =>
    decide (Int.fdiv (parse_date v.published_at) usPerDay = Int.fdiv now usPerDay)
  let recent_count := vac.countP fun v =>
    decide (now - parse_date v.published_at ≤ 21600 * usPerSec)
  ["📊 **ИТОГИ ПОИСКА:**".data,
   List.replicate 25 '─',
   "• Диапазон дат: ".data ++ newest_str ++ " - ".data ++ oldest_str]
  ++ (if 0 < today_count then
        ["• Опубликовано сегодня: **".data ++ natRepr today_count ++ "**".data]
      else [])
  ++ (if 0 < recent_count then
        ["• За последние 6 часов: **".data ++ natRepr recent_count ++ "**".data]
      else [])
  ++ ["• Города: ".data ++ pyJoin ", ".data (city_stats.map city_stat_entry),
      "• Специализации: ".data ++ pyJoin ", ".data (spec_stats.map spec_stat_entry),
      [],
      "🕒 **Отчет обновлен:** ".data ++ dateDMY now ++ " в ".data ++ timeHM now,
      "🔍 **Источник:** hh.ru".data]

/-- All lines of the non-empty report, in order. -/
def report_lines (v0 : VacancyRecord) (vrest : List VacancyRecord)
    (total_found : Nat) (period_start period_end now : Int) : List (List Char) :=
  header_lines (v0 :: vrest) total_found (period_str_of period_start period_end)
    ++ (enumFrom 1 (v0 :: vrest)).flatMap (record_block now)
    ++ summary_lines v0 vrest now

/-- `generate_beautiful_report` (lines 293-425). -/
def generate_beautiful_report (vacancies : List VacancyRecord) (total_found : Nat)
    (period_start period_end now : Int) : List Char :=
  match vacancies with
  | [] => no_vacancies_message period_start period_end
  | v0 :: vrest =>
      pyJoin "\n".data (report_lines v0 vrest total_found period_start period_end now)

/-! ## Dispatch sink: `send_to_telegram` chunk splitter (lines 109-146) -/

/-- Python `report.split('\n')` (always at least one element). -/
def splitNl : List Char → List (List Char)
  | [] => [[]]
  | c :: rest =>
      if c = '\n' then [] :: splitNl rest
      else
        match splitNl rest with
        | l :: ls => (c :: l) :: ls
        | [] => [[c]]

/-- The accumulation loop of lines 118-129: `parts`, `current_part`, and the
remaining lines. -/
def partsLoop (parts : List (List Char)) (current : List Char) :
    List (List Char) → List (List Char)
  | [] => if current.isEmpty then parts else parts ++ [current]
  | line :: rest =>
      if 4000 < (current ++ line ++ ['\n']).length then
        partsLoop (parts ++ [current]) (line ++ ['\n']) rest
      else
        partsLoop parts (current ++ line ++ ['\n']) rest

/-- The chunk list built by `send_to_telegram` for an over-long report. -/
def makeParts (report : List Char) : List (List Char) :=
  partsLoop [] [] (splitNl report)

/-- The dispatch trace of `send_to_telegram` (lines 117-140): the messages
sent to the channel in order, each paired with the `asyncio.sleep` delay in
seconds that precedes it (`0` for the first, `1` for each later chunk). -/
def sendEvents (report : List Char) : List (Nat × List Char) :=
  if 4000 < report.length then
    match makeParts report with
    | [] => []
    | p :: ps => (0, p) :: ps.map fun q => (1, q)
  else [(0, report)]

/-! ## `fetch_page` (lines 427-473)

The network is an oracle `resps : Nat → HttpResp` giving the outcome of the
`k`-th `session.get` of this call.  `MAX_PAGE_ATTEMPTS = 6`,
`INITIAL_BACKOFF = 1.0`; every sleep duration the code can produce is a
whole number of seconds (`Nat`): the doubling backoff yields 1, 2, 4, …,
capped by `min(backoff * 2, 60)`, and a numeric `Retry-After` header (which
must pass `str.isdigit`, i.e. be a nonempty digit string) is a nonnegative
integer. -/

/-- One HTTP response as `fetch_page` discriminates them: success (2xx with
a JSON page), status 400, status 429 with optional `Retry-After` header, or
anything raising `RequestException` / failing `raise_for_status`. -/
inductive HttpResp (π : Type) where
  | ok (page : π)
  | badRequest
  | tooMany (retryAfter : Option (List Char))
  | otherErr
  deriving DecidableEq

/-- Python `str.isdigit` (ASCII digits; nonempty). -/
def isDigits (s : List Char) : Bool := !s.isEmpty && s.all Char.isDigit

/-- `float(ra)` for a digit string, as a natural number of seconds. -/
def digitsToNat (s : List Char) : Nat :=
  s.foldl (fun acc c => acc * 10 + (c.toNat - 48)) 0

/-- The retry loop of `fetch_page` (lines 438-473).  `rem` counts remaining
iterations (entry `rem = 6`; `attempt = MAX_PAGE_ATTEMPTS` iff `rem = 1`);
`k` indexes `session.get` calls; `backoff` is the current backoff in
seconds.  Returns the result and the list of `time.sleep` durations. -/
def fetchLoop (resps : Nat → HttpResp π) : Nat → Nat → Nat → Option π × List Nat
  | _, _, 0 => (none, [])
  | k, backoff, rem + 1 =>
      match resps k with
      | .ok page => (some page, [])
      | .badRequest =>
          -- lines 444-449: degraded single-keyword retry of the same page;
          -- a non-2xx answer there raises and falls into the except branch.
          (match resps (k + 1) with
           | .ok page => (some page, [])
           | _ =>
              if rem = 0 then (none, [])
              else
                let r := fetchLoop resps (k + 2) (min (backoff * 2) 60) rem
                (r.1, backoff :: r.2))
      | .tooMany ra =>
          -- lines 451-460: Retry-After if numeric, else current backoff;
          -- sleep, double-and-cap the backoff, and retry the same page.
          let wait :=
            match ra with
            | some s => if isDigits s then digitsToNat s else backoff
            | none => backoff
          let r := fetchLoop resps (k + 1) (min (backoff * 2) 60) rem
          (r.1, wait :: r.2)
      | .otherErr =>
          -- lines 465-471: last attempt returns None without sleeping,
          -- otherwise sleep the backoff and double-and-cap it.
          if rem = 0 then (none, [])
          else
            let r := fetchLoop resps (k + 1) (min (backoff * 2) 60) rem
            (r.1, backoff :: r.2)

/-- `fetch_page` for one page: 6 attempts, initial backoff 1 s. -/
def fetch_page (resps : Nat → HttpResp π) : Option π × List Nat :=
  fetchLoop resps 0 1 6

/-! ## `collect_once` paging loop (lines 491-559)

A fetched page is its normalized `items` together with the embedded `found`
and `pages` counts; the per-item normalization (lines 521-551) maps raw
items to `VacancyRecord`s and its per-item `except` cannot fire on
well-typed records.  `fetch_page`'s outcome for page `p` is abstracted as an
oracle `Option RawPage` (the `"error" in result` branch of line 506 is dead
code: `fetch_page` only ever returns `{"json": …}` or `None`).  `PER_PAGE`
pacing: `time.sleep(PAGE_PAUSE)` with `PAGE_PAUSE = 0.5` runs at the bottom
of each iteration that did not break. -/

structure RawPage where
  items : List VacancyRecord
  pages : Nat
  found : Nat
  deriving DecidableEq

inductive StopReason where
  | fetchFail     -- (a) line 502: `result is None`
  | noItems       -- (b) line 517: `if not items`
  | countReached  -- (c) loop condition `len(all_vacancies) < limit * 3`
  | pageCeiling   -- (d) loop condition `page < 20`
  | lastPage      -- (e) line 555: `page >= pages_total`
  deriving DecidableEq, Repr

inductive CollectEv where
  | fetch (page : Nat)
  | sleep        -- the 0.5 s inter-page pacing delay (line 559)
  | stop (r : StopReason)
  deriving DecidableEq, Repr

/-- The `while` loop of lines 499-559.  `fuel` equals `20 - page` at every
call from the entry point, so `0 < fuel` is exactly the `page < 20` part of
the loop condition; the `fuel = 0` with `page < 20` configurations are
unreachable from `collect_once_loop`.  The count condition is evaluated
first, as Python's `and` does. -/
def collectLoop (f : Nat → Option RawPage) (limit : Int) :
    Nat → List VacancyRecord → Nat → List VacancyRecord × List CollectEv
  | fuel, acc, page =>
      if ¬((acc.length : Int) < limit * 3) then (acc, [.stop .countReached])
      else
        match fuel with
        | 0 => (acc, [.stop .pageCeiling])
        | fuel + 1 =>
            match f page with
            | none => (acc, [.fetch page, .stop .fetchFail])
            | some data =>
                if data.items.isEmpty then (acc, [.fetch page, .stop .noItems])
                else
                  let acc2 := acc ++ data.items
                  if data.pages ≤ page + 1 then (acc2, [.fetch page, .stop .lastPage])
                  else
                    let r := collectLoop f limit fuel acc2 (page + 1)
                    (r.1, .fetch page :: .sleep :: r.2)

/-- The paging loop of `collect_once`, from `page = 0` with no records. -/
def collect_once_loop (f : Nat → Option RawPage) (limit : Int) :
    List VacancyRecord × List CollectEv :=
  collectLoop f limit 20 [] 0

/-- Grammar of well-formed collection traces: zero or more `fetch`/`sleep`
pairs, then a terminal stop — (a), (b), (e) stops come directly after the
`fetch` of the same iteration with no pacing delay, while (c), (d) stops
occur at the top of an iteration, i.e. at the very start of the run or right
after the previous iteration's pacing delay. -/
def traceOk : List CollectEv → Bool
  | [.stop .countReached] => true
  | [.stop .pageCeiling] => true
  | [.fetch _, .stop .fetchFail] => true
  | [.fetch _, .stop .noItems] => true
  | [.fetch _, .stop .lastPage] => true
  | .fetch _ :: .sleep :: rest => traceOk rest
  | _ => false

/-- Whether the run's final stop is immediately preceded by a pacing delay
(a trailing `sleep` with no page fetched after it). -/
def delayBeforeStop (t : List CollectEv) : Bool :=
  match t.reverse with
  | .stop _ :: .sleep :: _ => true
  | _ => false

/-! ## Lemmas about the stable descending sort -/

theorem insertDesc_perm (key : α → Int) (x : α) (l : List α) :
    List.Perm (insertDesc key x l) (x :: l) := by
  induction l with
  | nil => rfl
  | cons y ys ih =>
      unfold insertDesc
      split
      · rfl
      · exact (ih.cons y).trans (List.Perm.swap x y ys)

theorem sortByKeyDesc_perm (key : α → Int) (l : List α) :
    List.Perm (sortByKeyDesc key l) l := by
  induction l with
  | nil => rfl
  | cons x xs ih => exact (insertDesc_perm key x _).trans (ih.cons x)

theorem mem_sortByKeyDesc (key : α → Int) (l : List α) (a : α) :
    a ∈ sortByKeyDesc key l ↔ a ∈ l :=
  (sortByKeyDesc_perm key l).mem_iff

theorem insertDesc_pairwise (key : α → Int) (x : α) (l : List α)
    (hl : l.Pairwise fun a b => key b ≤ key a) :
    (insertDesc key x l).Pairwise fun a b => key b ≤ key a := by
  induction l with
  | nil => simp [insertDesc]
  | cons y ys ih =>
      rcases List.pairwise_cons.mp hl with ⟨hy, hys⟩
      unfold insertDesc
      split
      · rename_i hxy
        refine List.pairwise_cons.mpr ⟨?_, hl⟩
        intro b hb
        rcases List.mem_cons.mp hb with rfl | hb
        · exact hxy
        · exact le_trans (hy b hb) hxy
      · rename_i hxy
        refine List.pairwise_cons.mpr ⟨?_, ih hys⟩
        intro b hb
        rcases List.mem_cons.mp ((insertDesc_perm key x ys).mem_iff.mp hb) with rfl | hb
        · exact le_of_lt (lt_of_not_le hxy)
        · exact hy b hb

theorem sortByKeyDesc_pairwise (key : α → Int) (l : List α) :
    (sortByKeyDesc key l).Pairwise fun a b => key b ≤ key a := by
  induction l with
  | nil => simp [sortByKeyDesc]
  | cons x xs ih => exact insertDesc_pairwise key x _ ih

theorem filter_insertDesc (key : α → Int) (kv : Int) (x : α) (l : List α) :
    (insertDesc key x l).filter (fun a => decide (key a = kv))
      = if key x = kv then x :: l.filter (fun a => decide (key a = kv))
        else l.filter (fun a => decide (key a = kv)) := by
  induction l with
  | nil =>
      by_cases h : key x = kv
      · simp [insertDesc, List.filter_cons, h]
      · simp [insertDesc, List.filter_cons, h]
  | cons y ys ih =>
      unfold insertDesc
      split
      · by_cases h : key x = kv
        · simp [List.filter_cons, h]
        · simp [List.filter_cons, h]
      · rename_i hxy
        have hlt : key x < key y := lt_of_not_le hxy
        by_cases h : key x = kv
        · have hy : ¬(key y = kv) := by omega
          simp [List.filter_cons, ih, h, hy]
        · rw [List.filter_cons, List.filter_cons, ih]
          simp [h]

theorem filter_sortByKeyDesc (key : α → Int) (kv : Int) (l : List α) :
    (sortByKeyDesc key l).filter (fun a => decide (key a = kv))
      = l.filter (fun a => decide (key a = kv)) := by
  induction l with
  | nil => rfl
  | cons x xs ih =>
      unfold sortByKeyDesc
      rw [filter_insertDesc, ih, List.filter_cons]
      by_cases h : key x = kv <;> simp [h]

/-- `keep_vacancy` unfolded to its specification form. -/
theorem keep_vacancy_iff (ps pe : Int) (v : VacancyRecord) :
    keep_vacancy ps pe v = true ↔
      ps ≤ parse_date v.published_at ∧ parse_date v.published_at ≤ pe ∧
      ∃ city, v.area_name = some city ∧ city ≠ [] ∧ is_target_city city = true := by
  unfold keep_vacancy
  rcases hle : decide (ps ≤ parse_date v.published_at) with _ | _
  · simp_all
  · rcases hge : decide (parse_date v.published_at ≤ pe) with _ | _
    · simp_all
    · have h1 : ps ≤ parse_date v.published_at := of_decide_eq_true hle
      have h2 : parse_date v.published_at ≤ pe := of_decide_eq_true hge
      cases ha : v.area_name with
      | none => simp_all
      | some a =>
          by_cases he : a.isEmpty
          · have : a = [] := List.isEmpty_iff.mp he
            simp_all
          · have hne : a ≠ [] := fun h => he (by simp [h])
            simp_all

/-- C1: a record is in the filter's output iff it is an input record whose
parsed `published_at` lies in `[period_start, period_end]` and whose city
name is present, non-empty, and case-insensitively contains one of the
target cities. -/
theorem c1_filter_membership (r : VacancyRecord) (vacancies : List VacancyRecord)
    (period_start period_end : Int) :
    r ∈ filter_vacancies vacancies period_start period_end ↔
      r ∈ vacancies ∧
      period_start ≤ parse_date r.published_at ∧
      parse_date r.published_at ≤ period_end ∧
      ∃ city, r.area_name = some city ∧ city ≠ [] ∧ is_target_city city = true := by
  unfold filter_vacancies
  rw [mem_sortByKeyDesc, List.mem_filter, keep_vacancy_iff]

/-- C2: the filter's output is sorted by parsed `published_at` descending,
and within each equal-timestamp class the output preserves the input's
arrival order (the class is exactly the filtered input subsequence). -/
theorem c2_sorted_stable (vacancies : List VacancyRecord)
    (period_start period_end : Int) (kv : Int) :
    (filter_vacancies vacancies period_start period_end).Pairwise
        (fun a b => parse_date b.published_at ≤ parse_date a.published_at) ∧
    (filter_vacancies vacancies period_start period_end).filter
        (fun r => decide (parse_date r.published_at = kv))
      = (vacancies.filter (keep_vacancy period_start period_end)).filter
        (fun r => decide (parse_date r.published_at = kv)) := by
  constructor
  · exact sortByKeyDesc_pairwise _ _
  · exact filter_sortByKeyDesc _ kv _

/-- C9: for every current time, the computed search period satisfies
`start < end`, spans exactly 24 hours (86400000000 µs), and both endpoints
lie on a 20:00 wall-clock boundary in the fixed UTC+3 zone. -/
theorem c9_period_invariants (now_utc : Int) :
    (get_target_period now_utc).1 < (get_target_period now_utc).2 ∧
    (get_target_period now_utc).2 - (get_target_period now_utc).1 = 86400000000 ∧
    ((get_target_period now_utc).1 + moscow_offset) % usPerDay = 72000000000 ∧
    ((get_target_period now_utc).2 + moscow_offset) % usPerDay = 72000000000 := by
  have h1 : (get_target_period now_utc).1
      = Int.fdiv (now_utc + 10800000000) 86400000000 * 86400000000
          + 72000000000 - 86400000000 - 10800000000 := rfl
  have h2 : (get_target_period now_utc).2
      = Int.fdiv (now_utc + 10800000000) 86400000000 * 86400000000
          + 72000000000 - 10800000000 := rfl
  rw [h1, h2]
  unfold moscow_offset usPerDay
  set D := Int.fdiv (now_utc + 10800000000) 86400000000 with hD
  refine ⟨by omega, by omega, ?_, ?_⟩
  · have e1 : D * 86400000000 + 72000000000 - 86400000000 - 10800000000 + 10800000000
        = 72000000000 + 86400000000 * (D - 1) := by ring
    rw [e1, Int.add_mul_emod_self_left]
    norm_num
  · have e2 : D * 86400000000 + 72000000000 - 10800000000 + 10800000000
        = 72000000000 + 86400000000 * D := by ring
    rw [e2, Int.add_mul_emod_self_left]
    norm_num


end Vacancies

namespace Vacancies

theorem catNe1 : pythonCat ≠ javaCat := by decide

theorem catNe2 : pythonCat ≠ frontendCat := by decide

theorem catNe3 : pythonCat ≠ genericCat := by decide

theorem catNe4 : javaCat ≠ frontendCat := by decide

theorem catNe5 : javaCat ≠ genericCat := by decide

theorem catNe6 : frontendCat ≠ genericCat := by decide

set_option maxHeartbeats 2000000 in
/-- C3: the classifier is a total function into the four categories, and
its result is characterised by first-match-wins substring tests on the
lowercase concatenation of title, requirement and responsibility; in
particular `"JavaScript Frontend Engineer"` classifies as Frontend. -/
theorem c3_classifier (vacancy_name requirement responsibility : List Char) :
    (detect_specialization vacancy_name requirement responsibility = pythonCat
      ↔ strIn "python".data (full_text_of vacancy_name requirement responsibility)
          = true) ∧
    (detect_specialization vacancy_name requirement responsibility = javaCat
      ↔ (strIn "python".data (full_text_of vacancy_name requirement responsibility)
            = false ∧
         strIn "java".data (full_text_of vacancy_name requirement responsibility)
            = true ∧
         strIn "javascript".data (full_text_of vacancy_name requirement responsibility)
            = false ∧
         strIn "js".data (full_text_of vacancy_name requirement responsibility)
            = false)) ∧
    (detect_specialization vacancy_name requirement responsibility = frontendCat
      ↔ (strIn "python".data (full_text_of vacancy_name requirement responsibility)
            = false ∧
         (strIn "java".data (full_text_of vacancy_name requirement responsibility)
            = false ∨
          strIn "javascript".data (full_text_of vacancy_name requirement responsibility)
            = true ∨
          strIn "js".data (full_text_of vacancy_name requirement responsibility)
            = true) ∧
         (strIn "frontend".data (full_text_of vacancy_name requirement responsibility)
            = true ∨
          strIn "react".data (full_text_of vacancy_name requirement responsibility)
            = true ∨
          strIn "angular".data (full_text_of vacancy_name requirement responsibility)
            = true ∨
          strIn "vue".data (full_text_of vacancy_name requirement responsibility)
            = true ∨
          strIn "javascript".data (full_text_of vacancy_name requirement responsibility)
            = true ∨
          strIn "js".data (full_text_of vacancy_name requirement responsibility)
            = true))) ∧
    (detect_specialization vacancy_name requirement responsibility = genericCat
      ↔ (strIn "python".data (full_text_of vacancy_name requirement responsibility)
            = false ∧
         strIn "java".data (full_text_of vacancy_name requirement responsibility)
            = false ∧
         strIn "frontend".data (full_text_of vacancy_name requirement responsibility)
            = false ∧
         strIn "react".data (full_text_of vacancy_name requirement responsibility)
            = false ∧
         strIn "angular".data (full_text_of vacancy_name requirement responsibility)
            = false ∧
         strIn "vue".data (full_text_of vacancy_name requirement responsibility)
            = false ∧
         strIn "javascript".data (full_text_of vacancy_name requirement responsibility)
            = false ∧
         strIn "js".data (full_text_of vacancy_name requirement responsibility)
            = false)) ∧
    detect_specialization "JavaScript Frontend Engineer".data [] [] = frontendCat := by
  refine ⟨?_, ?_, ?_, ?_, by decide⟩ <;>
  · unfold detect_specialization
    dsimp only
    cases hpy : strIn "python".data (full_text_of vacancy_name requirement responsibility) <;>
    cases hjv : strIn "java".data (full_text_of vacancy_name requirement responsibility) <;>
    cases hjsc : strIn "javascript".data (full_text_of vacancy_name requirement responsibility) <;>
    cases hjs : strIn "js".data (full_text_of vacancy_name requirement responsibility) <;>
    cases hfr : strIn "frontend".data (full_text_of vacancy_name requirement responsibility) <;>
    cases hre : strIn "react".data (full_text_of vacancy_name requirement responsibility) <;>
    cases han : strIn "angular".data (full_text_of vacancy_name requirement responsibility) <;>
    cases hvu : strIn "vue".data (full_text_of vacancy_name requirement responsibility) <;>
      decide

end Vacancies

namespace Vacancies

/-! ## Lemmas about the chunk splitter -/

/-- Rejoining the split lines with `'\n'` re-appended yields the report
plus one trailing newline. -/
theorem splitNl_flatten (l : List Char) :
    ((splitNl l).map fun x => x ++ ['\n']).flatten = l ++ ['\n'] := by
  induction l with
  | nil => rfl
  | cons c rest ih =>
      unfold splitNl
      by_cases h : c = '\n'
      · subst h
        simp [ih]
      · simp only [if_neg h]
        cases hs : splitNl rest with
        | nil => simp [hs] at ih
        | cons l0 ls =>
            rw [hs] at ih
            simp only [List.map_cons, List.flatten_cons] at ih ⊢
            simp [← List.append_assoc] at ih ⊢
            simp [ih]

theorem splitNl_ne_nil (l : List Char) : splitNl l ≠ [] := by
  cases l with
  | nil => simp [splitNl]
  | cons c rest =>
      unfold splitNl
      by_cases h : c = '\n'
      · simp [h]
      · simp only [if_neg h]
        cases hs : splitNl rest <;> simp

theorem partsLoop_flatten (lines : List (List Char)) :
    ∀ parts current, (partsLoop parts current lines).flatten
      = parts.flatten ++ current ++ (lines.map fun x => x ++ ['\n']).flatten := by
  induction lines with
  | nil =>
      intro parts current
      unfold partsLoop
      by_cases h : current.isEmpty
      · have : current = [] := List.isEmpty_iff.mp h
        simp [h, this]
      · simp [h]
  | cons line rest ih =>
      intro parts current
      unfold partsLoop
      by_cases h : 4000 < (current ++ line ++ ['\n']).length
      · simp only [if_pos h, ih]
        simp [List.append_assoc]
      · simp only [if_neg h, ih]
        simp [List.append_assoc]

/-- Shared helper: the chunks always concatenate to the report plus exactly
one appended newline. -/
theorem makeParts_flatten (report : List Char) :
    (makeParts report).flatten = report ++ ['\n'] := by
  unfold makeParts
  rw [partsLoop_flatten]
  simp [splitNl_flatten]

/-- C4 counterexample: for the 4001-character single-line report, the
concatenation of the chunks is not the original report (a newline has been
added), refuting the claim as stated. -/
theorem c4_counterexample :
    4000 < (List.replicate 4001 'a').length ∧
    (makeParts (List.replicate 4001 'a')).flatten ≠ List.replicate 4001 'a' := by
  constructor
  · rw [List.length_replicate]
    norm_num
  · rw [makeParts_flatten]
    intro h
    have := congrArg List.length h
    rw [List.length_append, List.length_replicate] at this
    simp at this

/-- C4 (amended): for every report longer than 4000 characters, the chunks
concatenate, in order, to the original report with exactly one `'\n'`
appended — no line is split across chunks and no line content is lost or
duplicated, but the splitter re-appends a newline to the final line. -/
theorem c4_concat (report : List Char) (hlong : 4000 < report.length) :
    (makeParts report).flatten = report ++ ['\n'] :=
  makeParts_flatten report

/-- C4 witness. -/
theorem c4_concat_witness :
    4000 < (List.replicate 4001 'a').length ∧
    (makeParts (List.replicate 4001 'a')).flatten = List.replicate 4001 'a' ++ ['\n'] :=
  ⟨by rw [List.length_replicate]; norm_num,
   c4_concat (List.replicate 4001 'a') (by rw [List.length_replicate]; norm_num)⟩

end Vacancies

namespace Vacancies

/-- A chunk built from a group of whole lines, each with its newline
re-appended. -/
def lineGroup (g : List (List Char)) : List Char :=
  (g.map fun l => l ++ ['\n']).flatten

theorem partsLoop_factor (lines : List (List Char)) :
    ∀ parts current, partsLoop parts current lines
      = parts ++ partsLoop [] current lines := by
  induction lines with
  | nil =>
      intro parts current
      unfold partsLoop
      by_cases h : current.isEmpty
      · rw [if_pos h, if_pos h]
        simp
      · rw [if_neg h, if_neg h]
        simp
  | cons line rest ih =>
      intro parts current
      unfold partsLoop
      by_cases h : 4000 < (current ++ line ++ ['\n']).length
      · rw [if_pos h, if_pos h]
        rw [ih (parts ++ [current]), ih ([] ++ [current])]
        simp
      · rw [if_neg h, if_neg h]
        rw [ih parts, ih []]

theorem lineGroup_ne_nil (g : List (List Char)) (hg : g ≠ []) :
    lineGroup g ≠ [] := by
  cases g with
  | nil => exact absurd rfl hg
  | cons x xs => simp [lineGroup]

theorem lineGroup_append (a b : List (List Char)) :
    lineGroup (a ++ b) = lineGroup a ++ lineGroup b := by
  simp [lineGroup]

/-- Every run of `partsLoop` starting from a nonempty pending group emits
chunks that are exactly whole-line groups partitioning the remaining
lines. -/
theorem partsLoop_groups (lines : List (List Char)) :
    ∀ g0 : List (List Char), g0 ≠ [] →
      ∃ gs : List (List (List Char)),
        gs.flatten = g0 ++ lines ∧ (∀ g ∈ gs, g ≠ []) ∧
        partsLoop [] (lineGroup g0) lines = gs.map lineGroup := by
  induction lines with
  | nil =>
      intro g0 hg0
      refine ⟨[g0], by simp, by simp [hg0], ?_⟩
      unfold partsLoop
      have h : ¬(lineGroup g0).isEmpty = true :=
        fun hh => lineGroup_ne_nil g0 hg0 (List.isEmpty_iff.mp hh)
      rw [if_neg h]
      simp
  | cons line rest ih =>
      intro g0 hg0
      unfold partsLoop
      by_cases h : 4000 < (lineGroup g0 ++ line ++ ['\n']).length
      · simp only [if_pos h]
        obtain ⟨gs1, hflat, hne, hrun⟩ := ih [line] (by simp)
        refine ⟨g0 :: gs1, by simp [hflat], ?_, ?_⟩
        · intro g hg
          rcases List.mem_cons.mp hg with rfl | hg
          · exact hg0
          · exact hne g hg
        · rw [partsLoop_factor]
          have : line ++ ['\n'] = lineGroup [line] := by simp [lineGroup]
          rw [this, hrun]
          simp
      · simp only [if_neg h]
        obtain ⟨gs1, hflat, hne, hrun⟩ := ih (g0 ++ [line]) (by simp)
        refine ⟨gs1, by simp [hflat], hne, ?_⟩
        have : lineGroup g0 ++ line ++ ['\n'] = lineGroup (g0 ++ [line]) := by
          simp [lineGroup_append, lineGroup, List.append_assoc]
        rw [this, hrun]

/-- Chunk-length invariant of the accumulation loop when every remaining
line is short. -/
theorem partsLoop_lengths (lines : List (List Char)) :
    ∀ parts current,
      (∀ l ∈ lines, l.length + 1 ≤ 4000) →
      (∀ p ∈ parts, p.length ≤ 4000) →
      current.length ≤ 4000 →
      ∀ p ∈ partsLoop parts current lines, p.length ≤ 4000 := by
  induction lines with
  | nil =>
      intro parts current _ hparts hcur p hp
      unfold partsLoop at hp
      by_cases h : current.isEmpty
      · rw [if_pos h] at hp
        exact hparts p hp
      · rw [if_neg h] at hp
        rcases List.mem_append.mp hp with hp | hp
        · exact hparts p hp
        · rcases List.mem_singleton.mp hp with rfl
          exact hcur
  | cons line rest ih =>
      intro parts current hlines hparts hcur p hp
      have hline : line.length + 1 ≤ 4000 := hlines line (by simp)
      unfold partsLoop at hp
      by_cases h : 4000 < (current ++ line ++ ['\n']).length
      · rw [if_pos h] at hp
        refine ih (parts ++ [current]) (line ++ ['\n'])
          (fun l hl => hlines l (by simp [hl])) ?_ (by simp; omega) p hp
        intro q hq
        rcases List.mem_append.mp hq with hq | hq
        · exact hparts q hq
        · rcases List.mem_singleton.mp hq with rfl
          exact hcur
      · rw [if_neg h] at hp
        refine ih parts (current ++ line ++ ['\n'])
          (fun l hl => hlines l (by simp [hl])) hparts (by omega) p hp

end Vacancies

namespace Vacancies

theorem splitNl_single (l : List Char) (h : ∀ c ∈ l, c ≠ '\n') :
    splitNl l = [l] := by
  induction l with
  | nil => rfl
  | cons c rest ih =>
      unfold splitNl
      rw [if_neg (h c (by simp))]
      rw [ih fun x hx => h x (by simp [hx])]

theorem splitNl_break (l r : List Char) (h : ∀ c ∈ l, c ≠ '\n') :
    splitNl (l ++ '\n' :: r) = l :: splitNl r := by
  induction l with
  | nil => simp [splitNl]
  | cons c rest ih =>
      rw [List.cons_append]
      simp only [splitNl]
      rw [if_neg (h c (by simp))]
      rw [ih fun x hx => h x (by simp [hx])]

theorem append_singleton_isEmpty (l : List Char) (c : Char) :
    (l ++ [c]).isEmpty = false := by
  cases l <;> rfl

/-- C5 counterexample: a report that is a single line of 4001 characters is
split into chunks of which one has length 4002 > 4000 (and the first chunk
is empty), refuting the claim that every chunk is at most 4000 characters. -/
theorem c5_counterexample :
    4000 < (List.replicate 4001 'a').length ∧
    ((makeParts (List.replicate 4001 'a')).all fun p => decide (p.length ≤ 4000))
      = false := by
  have hA : ∀ c ∈ List.replicate 4001 'a', c ≠ '\n' := by
    intro c hc
    rw [List.eq_of_mem_replicate hc]
    decide
  have hs : splitNl (List.replicate 4001 'a') = [List.replicate 4001 'a'] :=
    splitNl_single _ hA
  have hmp : makeParts (List.replicate 4001 'a')
      = [[], List.replicate 4001 'a' ++ ['\n']] := by
    unfold makeParts
    rw [hs]
    unfold partsLoop
    rw [if_pos (by
      rw [List.nil_append, List.length_append, List.length_replicate,
        List.length_singleton]
      norm_num)]
    unfold partsLoop
    rw [if_neg (by rw [append_singleton_isEmpty]; exact Bool.false_ne_true)]
    rfl
  constructor
  · rw [List.length_replicate]
    norm_num
  · rw [hmp]
    have hlen : (List.replicate 4001 'a' ++ ['\n']).length = 4002 := by
      rw [List.length_append, List.length_replicate, List.length_singleton]
    rw [List.all_cons, List.all_cons, List.all_nil, hlen]
    decide

/-- C5 (amended): for a report longer than 4000 characters in which every
line is shorter than 4000 characters, every chunk has length at most 4000;
the chunks are exactly whole-line groups (each line with its newline
re-appended) partitioning the report's lines in order; and the dispatch
trace sends the first chunk with no delay and each later chunk after a 1 s
delay, in order.  A single over-long line breaks the bound (see the
counterexample). -/
theorem c5_chunk_bound (report : List Char)
    (hlong : 4000 < report.length)
    (hlines : ((splitNl report).all fun l => decide (l.length < 4000)) = true) :
    ((makeParts report).all fun p => decide (p.length ≤ 4000)) = true ∧
    (∃ gs : List (List (List Char)),
        gs.flatten = splitNl report ∧ (∀ g ∈ gs, g ≠ []) ∧
        makeParts report = gs.map lineGroup) ∧
    sendEvents report
      = (0, (makeParts report).headD [])
          :: ((makeParts report).tail.map fun p => (1, p)) := by
  have hl : ∀ l ∈ splitNl report, l.length + 1 ≤ 4000 := by
    intro l hml
    have := List.all_eq_true.mp hlines l hml
    simp at this
    omega
  obtain ⟨l0, rest, hsplit⟩ : ∃ l0 rest, splitNl report = l0 :: rest := by
    cases h : splitNl report with
    | nil => exact absurd h (splitNl_ne_nil report)
    | cons a b => exact ⟨a, b, rfl⟩
  have h0 : l0.length + 1 ≤ 4000 := hl l0 (by rw [hsplit]; simp)
  have hfirst : makeParts report = partsLoop [] (lineGroup [l0]) rest := by
    unfold makeParts
    rw [hsplit]
    simp only [partsLoop]
    rw [if_neg (by
      simp only [List.nil_append, List.length_append, List.length_cons, List.length_nil]
      omega)]
    have he : ([] : List Char) ++ l0 ++ ['\n'] = lineGroup [l0] := by simp [lineGroup]
    rw [he]
  obtain ⟨gs, hflat, hgne, hrun⟩ := partsLoop_groups rest [l0] (by simp)
  have hparts : makeParts report = gs.map lineGroup := by rw [hfirst, hrun]
  refine ⟨?_, ⟨gs, ?_, hgne, hparts⟩, ?_⟩
  · refine List.all_eq_true.mpr fun p hp => ?_
    have hmem : p ∈ partsLoop [] [] (splitNl report) := hp
    have := partsLoop_lengths (splitNl report) [] [] hl
      (by intro q hq; simp at hq) (by simp) p hmem
    simpa using this
  · rw [hsplit, hflat]
    simp
  · unfold sendEvents
    rw [if_pos hlong]
    cases hmp : makeParts report with
    | nil =>
        exfalso
        rw [hparts] at hmp
        rcases List.map_eq_nil_iff.mp hmp with rfl
        simp [hsplit] at hflat
    | cons p ps => simp

/-- C5 witness: a 7999-character report of two 3999-character lines. -/
theorem c5_chunk_bound_witness :
    4000 < (List.replicate 3999 'a' ++ '\n' :: List.replicate 3999 'a').length ∧
    ((splitNl (List.replicate 3999 'a' ++ '\n' :: List.replicate 3999 'a')).all
        fun l => decide (l.length < 4000)) = true ∧
    (((makeParts (List.replicate 3999 'a' ++ '\n' :: List.replicate 3999 'a')).all
        fun p => decide (p.length ≤ 4000)) = true ∧
     (∃ gs : List (List (List Char)),
        gs.flatten = splitNl (List.replicate 3999 'a' ++ '\n' :: List.replicate 3999 'a') ∧
        (∀ g ∈ gs, g ≠ []) ∧
        makeParts (List.replicate 3999 'a' ++ '\n' :: List.replicate 3999 'a')
          = gs.map lineGroup) ∧
     sendEvents (List.replicate 3999 'a' ++ '\n' :: List.replicate 3999 'a')
      = (0, (makeParts (List.replicate 3999 'a' ++ '\n' :: List.replicate 3999 'a')).headD [])
          :: ((makeParts (List.replicate 3999 'a' ++ '\n' :: List.replicate 3999 'a')).tail.map
              fun p => (1, p))) := by
  have hA : ∀ c ∈ List.replicate 3999 'a', c ≠ '\n' := by
    intro c hc
    rw [List.eq_of_mem_replicate hc]
    decide
  have h1 : 4000 < (List.replicate 3999 'a' ++ '\n' :: List.replicate 3999 'a').length := by
    rw [List.length_append, List.length_cons, List.length_replicate]
    norm_num
  have h2 : ((splitNl (List.replicate 3999 'a' ++ '\n' :: List.replicate 3999 'a')).all
      fun l => decide (l.length < 4000)) = true := by
    rw [splitNl_break _ _ hA, splitNl_single _ hA, List.all_cons, List.all_cons,
      List.all_nil, List.length_replicate]
    decide
  exact ⟨h1, h2, c5_chunk_bound _ h1 h2⟩

end Vacancies

namespace Vacancies

/-- Whether a response is a success (2xx). -/
def isOkResp : HttpResp π → Bool
  | .ok _ => true
  | _ => false

/-- Whether a response is a 429 whose numeric `Retry-After` header equals
`w` seconds — exactly the case in which `fetch_page` sleeps an uncapped,
header-supplied duration. -/
def retryAfterGives (r : HttpResp π) (w : Nat) : Bool :=
  match r with
  | .tooMany (some s) => isDigits s && (digitsToNat s == w)
  | _ => false

theorem fetchLoop_waits (resps : Nat → HttpResp π) :
    ∀ rem k backoff, backoff ≤ 60 →
      ∀ w ∈ (fetchLoop resps k backoff rem).2,
        w ≤ 60 ∨ ∃ j, retryAfterGives (resps j) w = true := by
  intro rem
  induction rem with
  | zero =>
      intro k backoff _ w hw
      rw [fetchLoop] at hw
      simp at hw
  | succ rem ih =>
      intro k backoff hb w hw
      rw [fetchLoop] at hw
      split at hw
      · simp at hw
      · split at hw
        · simp at hw
        · split at hw
          · simp at hw
          · dsimp only at hw
            rcases List.mem_cons.mp hw with rfl | hw2
            · exact Or.inl hb
            · exact ih _ _ (by omega) w hw2
      · dsimp only at hw
        rcases List.mem_cons.mp hw with rfl | hw2
        · rename_i ra heq
          cases ra with
          | none => exact Or.inl hb
          | some s =>
              dsimp only
              by_cases hd : isDigits s = true
              · refine Or.inr ⟨k, ?_⟩
                rw [if_pos hd, heq]
                simp [retryAfterGives, hd]
              · rw [if_neg hd]
                exact Or.inl hb
        · exact ih _ _ (by omega) w hw2
      · split at hw
        · simp at hw
        · dsimp only at hw
          rcases List.mem_cons.mp hw with rfl | hw2
          · exact Or.inl hb
          · exact ih _ _ (by omega) w hw2

theorem fetchLoop_none (resps : Nat → HttpResp π)
    (hok : ∀ k, isOkResp (resps k) = false) :
    ∀ rem k backoff, (fetchLoop resps k backoff rem).1 = none := by
  intro rem
  induction rem with
  | zero => intro k backoff; rfl
  | succ rem ih =>
      intro k backoff
      rw [fetchLoop]
      split
      · rename_i page heq
        have h0 := hok k
        rw [heq] at h0
        simp [isOkResp] at h0
      · split
        · rename_i page heq
          have h0 := hok (k + 1)
          rw [heq] at h0
          simp [isOkResp] at h0
        · split
          · rfl
          · exact ih _ _
      · exact ih _ _
      · split
        · rfl
        · exact ih _ _

theorem fetchLoop_len (resps : Nat → HttpResp π) :
    ∀ rem k backoff, (fetchLoop resps k backoff rem).2.length ≤ rem := by
  intro rem
  induction rem with
  | zero =>
      intro k backoff
      rw [fetchLoop]
      simp
  | succ rem ih =>
      intro k backoff
      rw [fetchLoop]
      split
      · simp
      · split
        · simp
        · split
          · simp
          · dsimp only
            rw [List.length_cons]
            exact Nat.succ_le_succ (ih _ _)
      · dsimp only
        rw [List.length_cons]
        exact Nat.succ_le_succ (ih _ _)
      · split
        · simp
        · dsimp only
          rw [List.length_cons]
          exact Nat.succ_le_succ (ih _ _)

/-- C6 counterexample: against a server that always answers 429 with
`Retry-After: 61`, every one of the six sleeps lasts 61 s > 60 s — the
cap applies only to the doubling backoff, not to header-derived waits —
refuting the claim that the retry wait never exceeds 60 seconds. -/
theorem c6_counterexample :
    (fetch_page (π := RawPage) fun _ => HttpResp.tooMany (some "61".data)).2
      = List.replicate 6 61 ∧
    ((fetch_page (π := RawPage) fun _ => HttpResp.tooMany (some "61".data)).2.all
      fun w => decide (w ≤ 60)) = false := by
  constructor
  · rfl
  · decide

/-- C6 (amended): every sleep of `fetch_page` is either at most the 60 s
cap or is exactly the numeric `Retry-After` value of some 429 response
(which is used uncapped); if no request succeeds the fetch returns `None`
after at most 6 attempts (at most 6 sleeps). -/
theorem c6_fetch (resps : Nat → HttpResp π) :
    (∀ w ∈ (fetch_page resps).2,
        w ≤ 60 ∨ ∃ j, retryAfterGives (resps j) w = true) ∧
    ((∀ k, isOkResp (resps k) = false) → (fetch_page resps).1 = none) ∧
    (fetch_page resps).2.length ≤ 6 :=
  ⟨fetchLoop_waits resps 6 0 1 (by omega),
   fun hok => fetchLoop_none resps hok 6 0 1,
   fetchLoop_len resps 6 0 1⟩

/-- C6 witness: a server that always fails with a network-level error. -/
theorem c6_fetch_witness :
    (fetch_page (π := RawPage) fun _ => HttpResp.otherErr).1 = none ∧
    (fetch_page (π := RawPage) fun _ => HttpResp.otherErr).2.length ≤ 6 :=
  ⟨(c6_fetch fun _ => HttpResp.otherErr).2.1 fun _ => rfl,
   (c6_fetch fun _ => HttpResp.otherErr).2.2⟩

end Vacancies

namespace Vacancies

theorem collectLoop_traceOk (f : Nat → Option RawPage) (limit : Int) :
    ∀ fuel acc page, traceOk (collectLoop f limit fuel acc page).2 = true := by
  intro fuel
  induction fuel with
  | zero =>
      intro acc page
      rw [collectLoop]
      split
      · rfl
      · rfl
  | succ fuel ih =>
      intro acc page
      rw [collectLoop]
      split
      · rfl
      · dsimp only
        split
        · rfl
        · split
          · rfl
          · split
            · rfl
            · dsimp only
              rw [traceOk]
              exact ih _ _

/-- C7 (amended): every run of the paging loop produces a trace of
`fetch`/`sleep` iteration pairs ending in exactly one stop event; stops
(a) `fetchFail`, (b) `noItems`, (e) `lastPage` follow the iteration's
`fetch` directly with no pacing delay, while stops (c) `countReached` and
(d) `pageCeiling` are decided at the top of an iteration — at the start of
the run, or right after the pacing delay that followed the previous
iteration's fetch (so a stop via (c)/(d) after at least one page comes
with the 0.5 s delay already applied). -/
theorem c7_loop_trace (f : Nat → Option RawPage) (limit : Int) :
    traceOk (collect_once_loop f limit).2 = true :=
  collectLoop_traceOk f limit 20 [] 0

/-- C7 counterexample: with `limit = 1` and a first page of three records
(out of five pages), the loop fetches page 0, applies the 0.5 s pacing
delay, and only then stops because the collected count reached
`3 * limit` — the trace ends `…, sleep, stop countReached`, refuting the
claim that the pacing delay is not applied when a stop condition
triggers. -/
theorem c7_counterexample :
    (collect_once_loop
        (fun _ => some ⟨[⟨none, [], [], none, none, none, none, [], []⟩,
                         ⟨none, [], [], none, none, none, none, [], []⟩,
                         ⟨none, [], [], none, none, none, none, [], []⟩], 5, 0⟩) 1).2
      = [.fetch 0, .sleep, .stop .countReached] ∧
    delayBeforeStop ((collect_once_loop
        (fun _ => some ⟨[⟨none, [], [], none, none, none, none, [], []⟩,
                         ⟨none, [], [], none, none, none, none, [], []⟩,
                         ⟨none, [], [], none, none, none, none, [], []⟩], 5, 0⟩) 1).2)
      = true := by
  constructor
  · rfl
  · rfl

end Vacancies

namespace Vacancies

/-- A record whose `published_at` no parser accepts. -/
def unparseableRecord : VacancyRecord :=
  ⟨none, [], [], some "not a date".data, none, none, none, [], []⟩

/-- C10: `parse_date` is total by construction (it is a Lean function);
whenever parsing fails — `None` input or an unparseable string — it
returns `datetime.min` in UTC (absolute timestamp `0`), which is strictly
below the period start of any run whose clock reads at least
0001-01-01 21:00 UTC, so such a record is silently dropped by the window
comparison in `filter_vacancies` (never reaching the per-record error
path, which the embedding shows to be unreachable). -/
theorem c10_parse_min (r : VacancyRecord) (vacancies : List VacancyRecord)
    (now_utc : Int) (hnow : 75600000000 ≤ now_utc)
    (hbad : isParseable r.published_at = false) :
    parse_date r.published_at = 0 ∧
    0 < (get_target_period now_utc).1 ∧
    r ∉ filter_vacancies vacancies (get_target_period now_utc).1
        (get_target_period now_utc).2 := by
  have hp : parse_date r.published_at = 0 := by
    unfold isParseable at hbad
    unfold parse_date
    cases hd : r.published_at with
    | none => rfl
    | some s =>
        rw [hd] at hbad
        dsimp only at hbad ⊢
        cases hf : fromisoformat (preprocessZ s) with
        | none => rfl
        | some t =>
            rw [hf] at hbad
            simp at hbad
  have hstart : 0 < (get_target_period now_utc).1 := by
    have h1 : (get_target_period now_utc).1
        = Int.fdiv (now_utc + 10800000000) 86400000000 * 86400000000
            + 72000000000 - 86400000000 - 10800000000 := rfl
    rw [h1, Int.fdiv_eq_ediv _ (by norm_num)]
    omega
  refine ⟨hp, hstart, ?_⟩
  intro hin
  unfold filter_vacancies at hin
  rw [mem_sortByKeyDesc, List.mem_filter, keep_vacancy_iff] at hin
  obtain ⟨-, hle, -, -⟩ := hin
  rw [hp] at hle
  omega

/-- C10 witness. -/
theorem c10_parse_min_witness :
    (75600000000 : Int) ≤ 75600000000 ∧
    isParseable unparseableRecord.published_at = false ∧
    (parse_date unparseableRecord.published_at = 0 ∧
     0 < (get_target_period 75600000000).1 ∧
     unparseableRecord ∉ filter_vacancies [unparseableRecord]
        (get_target_period 75600000000).1 (get_target_period 75600000000).2) :=
  ⟨le_refl _, by decide,
   c10_parse_min unparseableRecord [unparseableRecord] 75600000000
     (le_refl _) (by decide)⟩

end Vacancies

namespace Vacancies

/-! ## Lemmas about the renderer -/

theorem digitChar_isDigit (n : Nat) (h : n < 10) : (digitChar n).isDigit = true := by
  interval_cases n <;> decide

theorem natReprAux_digits : ∀ fuel n, ∀ c ∈ natReprAux fuel n, c.isDigit = true := by
  intro fuel
  induction fuel with
  | zero => intro n c hc; simp [natReprAux] at hc
  | succ fuel ih =>
      intro n c hc
      rw [natReprAux] at hc
      by_cases h : n < 10
      · rw [if_pos h] at hc
        rcases List.mem_singleton.mp hc with rfl
        exact digitChar_isDigit n h
      · rw [if_neg h] at hc
        rcases List.mem_append.mp hc with hc | hc
        · exact ih (n / 10) c hc
        · rcases List.mem_singleton.mp hc with rfl
          exact digitChar_isDigit _ (Nat.mod_lt n (by omega))

theorem natRepr_digits (n : Nat) : ∀ c ∈ natRepr n, c.isDigit = true :=
  natReprAux_digits (n + 1) n

theorem pad2_digits (n : Nat) : ∀ c ∈ pad2 n, c.isDigit = true := by
  intro c hc
  unfold pad2 at hc
  by_cases h : n < 10
  · rw [if_pos h] at hc
    rcases List.mem_cons.mp hc with rfl | hc
    · decide
    · exact natRepr_digits n c hc
  · rw [if_neg h] at hc
    exact natRepr_digits n c hc

/-- The characters `strftime('%d.%m.%Y %H:%M')` output can contain. -/
def isPeriodChar (c : Char) : Bool :=
  c.isDigit || c = '.' || c = ':' || c = ' ' || c = '-'

theorem intRepr_periodChar (i : Int) : ∀ c ∈ intRepr i, isPeriodChar c = true := by
  intro c hc
  unfold intRepr at hc
  by_cases h : i < 0
  · rw [if_pos h] at hc
    rcases List.mem_cons.mp hc with rfl | hc
    · decide
    · simp [isPeriodChar, natRepr_digits _ c hc]
  · rw [if_neg h] at hc
    simp [isPeriodChar, natRepr_digits _ c hc]

theorem pad2_periodChar (n : Nat) : ∀ c ∈ pad2 n, isPeriodChar c = true := by
  intro c hc
  simp [isPeriodChar, pad2_digits n c hc]

theorem dateDMY_periodChar (t : Int) : ∀ c ∈ dateDMY t, isPeriodChar c = true := by
  intro c hc
  unfold dateDMY at hc
  rcases List.mem_append.mp hc with hc | hc
  · rcases List.mem_append.mp hc with hc | hc
    · rcases List.mem_append.mp hc with hc | hc
      · rcases List.mem_append.mp hc with hc | hc
        · exact pad2_periodChar _ c hc
        · rcases List.mem_singleton.mp hc with rfl
          decide
      · exact pad2_periodChar _ c hc
    · rcases List.mem_singleton.mp hc with rfl
      decide
  · exact intRepr_periodChar _ c hc

theorem timeHM_periodChar (t : Int) : ∀ c ∈ timeHM t, isPeriodChar c = true := by
  intro c hc
  unfold timeHM at hc
  rcases List.mem_append.mp hc with hc | hc
  · rcases List.mem_append.mp hc with hc | hc
    · exact pad2_periodChar _ c hc
    · rcases List.mem_singleton.mp hc with rfl
      decide
  · exact pad2_periodChar _ c hc

theorem dmyhm_periodChar (t : Int) : ∀ c ∈ dmyhm t, isPeriodChar c = true := by
  intro c hc
  unfold dmyhm at hc
  rcases List.mem_append.mp hc with hc | hc
  · rcases List.mem_append.mp hc with hc | hc
    · exact dateDMY_periodChar _ c hc
    · rcases List.mem_singleton.mp hc with rfl
      decide
  · exact timeHM_periodChar _ c hc

theorem period_str_periodChar (ps pe : Int) :
    ∀ c ∈ period_str_of ps pe, isPeriodChar c = true := by
  intro c hc
  unfold period_str_of at hc
  rcases List.mem_append.mp hc with hc | hc
  · rcases List.mem_append.mp hc with hc | hc
    · exact dmyhm_periodChar _ c hc
    · exact List.all_eq_true.mp (show (" - ".data.all isPeriodChar) = true by decide) c hc
  · exact dmyhm_periodChar _ c hc

theorem periodChar_ne_comma (c : Char) (h : isPeriodChar c = true) : ¬c = ',' := by
  intro heq
  subst heq
  exact absurd h (by decide)

theorem periodChar_ne_nl (c : Char) (h : isPeriodChar c = true) : ¬c = '\n' := by
  intro heq
  subst heq
  exact absurd h (by decide)

theorem replaceComma_eq_self (l : List Char) (h : ∀ c ∈ l, ¬c = ',') :
    replaceComma l = l := by
  induction l with
  | nil => rfl
  | cons c rest ih =>
      unfold replaceComma
      rw [List.map_cons, if_neg (h c (by simp))]
      have := ih fun x hx => h x (by simp [hx])
      unfold replaceComma at this
      rw [this]

/-- The empty-result message, with the (vacuous) comma replacement
evaluated away: no character of the message is a comma. -/
theorem no_vacancies_message_eq (ps pe : Int) :
    no_vacancies_message ps pe
      = "❌ За указанный период (".data ++ period_str_of ps pe
          ++ ") IT-вакансии не найдены.".data := by
  unfold no_vacancies_message
  apply replaceComma_eq_self
  intro c hc
  rcases List.mem_append.mp hc with hc | hc
  · rcases List.mem_append.mp hc with hc | hc
    · have h := List.all_eq_true.mp
        (show ("❌ За указанный период (".data.all fun c => !(c == ',')) = true
          by decide) c hc
      simpa using h
    · exact periodChar_ne_comma c (period_str_periodChar ps pe c hc)
  · have h := List.all_eq_true.mp
      (show (") IT-вакансии не найдены.".data.all fun c => !(c == ',')) = true
        by decide) c hc
    simpa using h

theorem no_vacancies_message_no_nl (ps pe : Int) :
    '\n' ∉ no_vacancies_message ps pe := by
  rw [no_vacancies_message_eq]
  intro hc
  rcases List.mem_append.mp hc with hc | hc
  · rcases List.mem_append.mp hc with hc | hc
    · have h := List.all_eq_true.mp
        (show ("❌ За указанный период (".data.all fun c => !(c == '\n')) = true
          by decide) _ hc
      simp at h
    · exact periodChar_ne_nl _ (period_str_periodChar ps pe _ hc) rfl
  · have h := List.all_eq_true.mp
      (show (") IT-вакансии не найдены.".data.all fun c => !(c == '\n')) = true
        by decide) _ hc
    simp at h

end Vacancies

namespace Vacancies

theorem pyJoin_cons (sep x : List Char) (ys : List (List Char)) (h : ys ≠ []) :
    pyJoin sep (x :: ys) = x ++ sep ++ pyJoin sep ys := by
  cases ys with
  | nil => exact absurd rfl h
  | cons y ys2 => rfl

theorem infix_of_mem_pyJoin (sep x : List Char) (ls : List (List Char)) (h : x ∈ ls) :
    x <:+: pyJoin sep ls := by
  induction ls with
  | nil => simp at h
  | cons y ys ih =>
      rcases List.mem_cons.mp h with rfl | h2
      · cases ys with
        | nil => exact List.infix_rfl
        | cons z zs =>
            exact ⟨[], sep ++ pyJoin sep (z :: zs), by
              rw [pyJoin_cons sep x (z :: zs) (by simp)]
              simp [List.append_assoc]⟩
      · have hne : ys ≠ [] := by
          intro hh
          subst hh
          simp at h2
        obtain ⟨s1, t1, hst⟩ := ih h2
        refine ⟨y ++ sep ++ s1, t1, ?_⟩
        rw [pyJoin_cons sep y ys hne, ← hst]
        simp [List.append_assoc]

theorem infix_pyJoin_of_prefix_mem (sep p x : List Char) (ls : List (List Char))
    (hp : p <+: x) (hm : x ∈ ls) : p <:+: pyJoin sep ls := by
  obtain ⟨t, ht⟩ := hp
  obtain ⟨s1, t1, hst⟩ := infix_of_mem_pyJoin sep x ls hm
  refine ⟨s1, t ++ t1, ?_⟩
  rw [← hst, ← ht]
  simp [List.append_assoc]

/-- C8: on an empty filtered set the renderer returns exactly the single
"no vacancies found" message — it contains the formatted period string and
not a single newline, hence no header, statistics or per-record lines — and
on any non-empty set it produces the full multi-line layout: it starts with
the header line, contains the vacancy-section heading, and contains the
numbered section of the first record. -/
theorem c8_report (total_found : Nat) (period_start period_end now : Int)
    (v0 : VacancyRecord) (vrest : List VacancyRecord) :
    generate_beautiful_report [] total_found period_start period_end now
      = "❌ За указанный период (".data ++ period_str_of period_start period_end
          ++ ") IT-вакансии не найдены.".data ∧
    period_str_of period_start period_end
      <:+: generate_beautiful_report [] total_found period_start period_end now ∧
    '\n' ∉ generate_beautiful_report [] total_found period_start period_end now ∧
    "💻 **ОБЗОР IT-ВАКАНСИЙ**\n".data
      <+: generate_beautiful_report (v0 :: vrest) total_found period_start period_end
            now ∧
    "📋 **ВАКАНСИИ:**".data
      <:+: generate_beautiful_report (v0 :: vrest) total_found period_start period_end
            now ∧
    "**1. ".data
      <:+: generate_beautiful_report (v0 :: vrest) total_found period_start period_end
            now := by
  have hempty : generate_beautiful_report [] total_found period_start period_end now
      = no_vacancies_message period_start period_end := rfl
  have hcons : generate_beautiful_report (v0 :: vrest) total_found period_start
        period_end now
      = pyJoin "\n".data (report_lines v0 vrest total_found period_start period_end
          now) := rfl
  refine ⟨?_, ?_, ?_, ?_, ?_, ?_⟩
  · rw [hempty, no_vacancies_message_eq]
  · rw [hempty, no_vacancies_message_eq]
    exact ⟨"❌ За указанный период (".data, ") IT-вакансии не найдены.".data, rfl⟩
  · rw [hempty]
    exact no_vacancies_message_no_nl period_start period_end
  · obtain ⟨tail, htail⟩ : ∃ tail,
        report_lines v0 vrest total_found period_start period_end now
          = "💻 **ОБЗОР IT-ВАКАНСИЙ**".data
              :: "══════════════════════════════".data :: tail := ⟨_, rfl⟩
    rw [hcons, htail, pyJoin_cons _ _ _ (by simp)]
    refine ⟨pyJoin "\n".data ("══════════════════════════════".data :: tail), ?_⟩
    rw [show "💻 **ОБЗОР IT-ВАКАНСИЙ**\n".data
        = "💻 **ОБЗОР IT-ВАКАНСИЙ**".data ++ "\n".data from by decide]
  · rw [hcons]
    apply infix_of_mem_pyJoin
    unfold report_lines
    apply List.mem_append_left
    apply List.mem_append_left
    unfold header_lines
    dsimp only
    iterate 10 apply List.mem_cons_of_mem
    exact List.mem_cons_self _ _
  · rw [hcons]
    obtain ⟨rest, hrest⟩ : ∃ rest,
        (enumFrom 1 (v0 :: vrest)).flatMap (record_block now)
          = ("**".data ++ natRepr 1 ++ ". ".data
              ++ detect_specialization v0.name v0.requirement v0.responsibility
              ++ "**".data) :: rest := ⟨_, rfl⟩
    apply infix_pyJoin_of_prefix_mem _ _
      ("**".data ++ natRepr 1 ++ ". ".data
        ++ detect_specialization v0.name v0.requirement v0.responsibility
        ++ "**".data)
    · refine ⟨detect_specialization v0.name v0.requirement v0.responsibility
        ++ "**".data, ?_⟩
      rw [show "**1. ".data = ("**".data ++ natRepr 1) ++ ". ".data from by decide]
      simp [List.append_assoc]
    · unfold report_lines
      apply List.mem_append_left
      apply List.mem_append_right
      rw [hrest]
      exact List.mem_cons_self _ _

end Vacancies
